import Mathlib

set_option maxHeartbeats 1000000

/- Shallow embedding of the task-collection manager (src/services/TaskManager.ts,
   later revision, together with the matching src/models/Task.ts revision using
   property-presence checks).  JavaScript Date values are modelled by their
   millisecond timestamp (an integer); JavaScript strings by Lean strings;
   the loosely typed fields of persisted records by scalar JSON values.
   The file-system and JSON collaborators are modelled abstractly, per the
   design's treatment of the backing store as a blob store: a blob either is
   absent, exists but is blank, exists but fails to parse, or parses into a
   sequence of raw records.  Persistence writes are collected in a list (one
   entry per full-collection write) instead of performed. -/

namespace TaskMgr

/-- Scalar JSON values, used to model the loosely typed `completed` field of
persisted records (which may hold null, booleans, numbers or strings). -/
inductive JsonVal where
  | jnull
  | jbool (b : Bool)
  | jnum (n : Int)
  | jstr (s : String)
  deriving DecidableEq

/-- An in-memory task record (src/models/Task.ts).  `title` and `description`
are optional because loading arbitrary persisted data can leave them undefined;
`dueDate` is the millisecond timestamp of the JavaScript Date. -/
structure Task where
  id : String
  title : Option String
  description : Option String
  completed : Bool
  dueDate : Option Int
  deriving DecidableEq

/-- A raw persisted record as produced by parsing the blob.  `id`, `title`,
`description` and `dueDate` follow the persisted layout (string-typed when
present); `completed` may be any scalar JSON value, matching the code's
`rawTask.completed === true` normalisation. -/
structure RawTask where
  id : Option String
  title : Option String
  description : Option String
  completed : Option JsonVal
  dueDate : Option String
  deriving DecidableEq

/-- One record of the serialized collection as written by `saveTasks`
(JSON.stringify omits keys whose value is undefined, hence the options). -/
structure SavedTask where
  id : String
  title : Option String
  description : Option String
  completed : Bool
  dueDate : Option String
  deriving DecidableEq

/-- Console output of the manager, kept as structured data: informational
messages, the invalid-date warning (which identifies the record by id and
carries the offending string), and the load error report. -/
inductive LogEntry where
  | info (msg : String)
  | warnInvalidDate (id : String) (raw : String)
  | errorLoad
  deriving DecidableEq

/-- Whether a log entry is the invalid-date warning. -/
def LogEntry.isWarn : LogEntry → Bool
  | LogEntry.warnInvalidDate _ _ => true
  | _ => false

/-- The persisted blob as seen through the abstract backing store: absent,
blank (trims to the empty string), unparseable, or parsed into raw records. -/
inductive Blob where
  | absent
  | blank
  | invalid
  | parsed (raws : List RawTask)

/-- The manager's state: the ordered collection and the id counter. -/
structure ManagerState where
  tasks : List Task
  nextId : Int
  deriving DecidableEq

/- Decimal rendering and parsing.  `intToStr` models JavaScript's
`Number.prototype.toString` on integers; `jsParseInt` models
`parseInt(s, 10)`: skip leading whitespace, optional sign, then the longest
digit run, NaN (here: none) if there is no digit. -/

/-- The decimal digit character for a value below ten. -/
def digitChar : Nat → Char
  | 0 => '0'
  | 1 => '1'
  | 2 => '2'
  | 3 => '3'
  | 4 => '4'
  | 5 => '5'
  | 6 => '6'
  | 7 => '7'
  | 8 => '8'
  | _ => '9'

/-- Numeric value of a digit character. -/
def digitVal (c : Char) : Nat := c.toNat - 48

/-- Value of a run of digit characters, most significant first. -/
def digitsToNat (ds : List Char) : Nat := ds.foldl (fun a c => a * 10 + digitVal c) 0

/-- Longest digit run at the front of the characters, as a number;
none when the run is empty. -/
def jsParseNat (cs : List Char) : Option Nat :=
  let ds := cs.takeWhile Char.isDigit
  if ds.isEmpty then none else some (digitsToNat ds)

/-- Sign handling of `parseInt` over a character list. -/
def jsParseIntChars (cs : List Char) : Option Int :=
  match cs with
  | [] => none
  | c :: rest =>
    if c = '-' then
      match jsParseNat rest with
      | some n => some (-(n : Int))
      | none => none
    else if c = '+' then
      match jsParseNat rest with
      | some n => some ((n : Int))
      | none => none
    else
      match jsParseNat (c :: rest) with
      | some n => some ((n : Int))
      | none => none

/-- The whitespace characters `parseInt` skips (common subset). -/
def jsWhitespace (c : Char) : Bool := c == ' ' || c == '\t' || c == '\n' || c == '\r'

/-- Model of `parseInt(s, 10)`: none plays the role of NaN. -/
def jsParseInt (s : String) : Option Int := jsParseIntChars (s.toList.dropWhile jsWhitespace)

/-- Decimal digits of a natural number, most significant first; the first
argument is structural fuel (any amount above the number works), so that the
function computes by plain reduction. -/
def natDigitsAux : Nat → Nat → List Char
  | 0, _ => []
  | fuel + 1, n =>
    if n < 10 then [digitChar n]
    else natDigitsAux fuel (n / 10) ++ [digitChar (n % 10)]

/-- Decimal digits of a natural number, most significant first. -/
def natDigits (n : Nat) : List Char := natDigitsAux (n + 1) n

/-- Characters of the decimal rendering of an integer. -/
def intChars (i : Int) : List Char :=
  if i < 0 then '-' :: natDigits i.natAbs else natDigits i.toNat

/-- Model of JavaScript `(n).toString()` for an integer. -/
def intToStr (i : Int) : String := String.mk (intChars i)

/- Model of the host date primitives (external collaborators of the
repository code): a date is its millisecond timestamp, `toISOString` renders
it injectively, and `parseDate` (JavaScript `new Date(string)` followed by the
`isNaN(getTime())` validity check) recovers the timestamp from a rendered
string and rejects strings of any other shape. -/

/-- Model of `Date.prototype.toISOString`. -/
def toISOString (d : Int) : String := String.mk ('I' :: 'S' :: 'O' :: ':' :: intChars d)

/-- Model of parsing a date string and checking validity: some timestamp on
success, none when the string does not denote a valid calendar date. -/
def parseDate (s : String) : Option Int :=
  match s.toList with
  | 'I' :: 'S' :: 'O' :: ':' :: rest => jsParseIntChars rest
  | _ => none

/-- Task.toggleCompletion: flips the completed flag. -/
def Task.toggleCompletion (t : Task) : Task := { t with completed := !t.completed }

/-- A partial update over the detail fields, with property presence made
explicit: the outer option is key presence, the inner option is the value
(none standing for an explicitly undefined value). -/
structure DetailUpdates where
  title : Option (Option String)
  description : Option (Option String)
  dueDate : Option (Option Int)
  deriving DecidableEq

/-- The empty detail update: no key present. -/
def DetailUpdates.empty : DetailUpdates :=
  { title := none, description := none, dueDate := none }

/-- Task.updateDetails (property-presence revision): title is set only when the
key is present with a defined value; description and dueDate are set whenever
the key is present, an undefined value clearing the field. -/
def Task.updateDetails (t : Task) (d : DetailUpdates) : Task :=
  let t1 :=
    match d.title with
    | some (some s) => { t with title := some s }
    | _ => t
  let t2 :=
    match d.description with
    | some v => { t1 with description := v }
    | none => t1
  match d.dueDate with
  | some v => { t2 with dueDate := v }
  | none => t2

/-- The argument of updateTask.  For `completed` the code's test is
`updates.completed !== undefined`, so a present-but-undefined key behaves
exactly like an absent one and both are modelled as none; the detail fields
keep key presence explicit since the code tests `hasOwnProperty`. -/
structure TaskUpdates where
  completed : Option Bool
  title : Option (Option String)
  description : Option (Option String)
  dueDate : Option (Option Int)
  deriving DecidableEq

/-- saveTasks' per-record serialization (undefined dueDate omitted). -/
def serTask (t : Task) : SavedTask :=
  { id := t.id, title := t.title, description := t.description,
    completed := t.completed,
    dueDate := match t.dueDate with
      | some d => some (toISOString d)
      | none => none }

/-- saveTasks: the full-collection serialization written on each persist. -/
def saveTasks (ts : List Task) : List SavedTask := ts.map serTask

/-- Reading back a serialized record as a raw parsed record. -/
def savedToRaw (st : SavedTask) : RawTask :=
  { id := some st.id, title := st.title, description := st.description,
    completed := some (JsonVal.jbool st.completed), dueDate := st.dueDate }

/-- The id step of loadTasks' reconstruction: `rawTask.id ? rawTask.id.toString()
: (this.nextId++).toString()` — a truthy stored id (a non-empty string) is kept
verbatim, otherwise an id is minted from the counter, advancing it. -/
def chooseId (nid : Int) (r : RawTask) : String × Int :=
  match r.id with
  | some s => if s = "" then (intToStr nid, nid + 1) else (s, nid)
  | none => (intToStr nid, nid + 1)

/-- The due-date step of loadTasks' reconstruction: a truthy (non-empty)
stored string is parsed; on success the timestamp is kept, on failure the
field stays absent and a warning identifying the record's id is emitted;
a falsy (absent or empty) stored value is skipped silently. -/
def parseDue (id : String) (rdd : Option String) : Option Int × List LogEntry :=
  match rdd with
  | some s =>
    if s = "" then (none, [])
    else
      match parseDate s with
      | some d => (some d, [])
      | none => (none, [LogEntry.warnInvalidDate id s])
  | none => (none, [])

/-- One step of loadTasks' reconstruction map: choose the id, copy title and
description verbatim, normalise `completed` with `=== true`, and process the
stored due date. -/
def reconstructOne (nid : Int) (r : RawTask) : Task × Int × List LogEntry :=
  let idp := chooseId nid r
  let due := parseDue idp.1 r.dueDate
  ({ id := idp.1, title := r.title, description := r.description,
     completed := decide (r.completed = some (JsonVal.jbool true)), dueDate := due.1 },
   idp.2, due.2)

/-- loadTasks' reconstruction map over the whole parsed sequence, threading
the minting counter (which starts at 1) and collecting warnings in order. -/
def reconstructAll : List RawTask → Int → List Task × Int × List LogEntry
  | [], nid => ([], nid, [])
  | r :: rs, nid =>
    let a := reconstructOne nid r
    let b := reconstructAll rs a.2.1
    (a.1 :: b.1, b.2.1, a.2.2 ++ b.2.2)

/-- The numeric value an id contributes to the counter recomputation:
its parseInt value, or 0 when it does not parse (the NaN-to-0 step). -/
def numericOr0 (t : Task) : Int := (jsParseInt t.id).getD 0

/-- `Math.max` over the NaN-to-0 numeric id values of a non-empty collection
(0 on the empty list, where the code never evaluates it). -/
def maxNumericOr0 : List Task → Int
  | [] => 0
  | t :: rest => rest.foldl (fun m t' => max m (numericOr0 t')) (numericOr0 t)

/-- loadTasks on an already parsed sequence: reconstruct every entry, then
recompute the counter as maximum-numeric-id + 1, floored at 1 (the code's
isNaN guard on the maximum is vacuous here since NaN was mapped to 0), and
log the success message. -/
def loadFromRaw (raws : List RawTask) : ManagerState × List LogEntry :=
  let a := reconstructAll raws 1
  let ts := a.1
  let logs := a.2.2 ++ [LogEntry.info "Tasks loaded successfully."]
  if 0 < ts.length then
    let m := maxNumericOr0 ts
    ({ tasks := ts, nextId := if m < 1 then 1 else m + 1 }, logs)
  else
    ({ tasks := ts, nextId := 1 }, logs)

/-- Initialization (the constructor's loadTasks): absent, blank and
unparseable blobs all yield the empty collection with the counter at 1 — the
unparseable case through the catch handler, which reports the error and does
not re-raise (modelled by this being a total function); a parsed blob goes
through reconstruction. -/
def initManager : Blob → ManagerState × List LogEntry
  | Blob.absent =>
    ({ tasks := [], nextId := 1 }, [LogEntry.info "Data file not found. Initializing with no tasks."])
  | Blob.blank =>
    ({ tasks := [], nextId := 1 }, [LogEntry.info "Data file is empty. Initializing with no tasks."])
  | Blob.invalid => ({ tasks := [], nextId := 1 }, [LogEntry.errorLoad])
  | Blob.parsed raws => loadFromRaw raws

/-- `Math.max` over the raw parseInt values of the ids, with NaN poisoning:
none as soon as any id fails to parse (and on the empty collection). -/
def jsNanMax (a b : Option Int) : Option Int :=
  match a, b with
  | some m, some v => some (max m v)
  | _, _ => none

/-- The NaN-poisoned maximum used by addTask's redundant counter rescan. -/
def jsMaxParsed : List Task → Option Int
  | [] => none
  | t :: rest => rest.foldl (fun acc t' => jsNanMax acc (jsParseInt t'.id)) (jsParseInt t.id)

/-- addTask's guard: when the collection is non-empty and the counter is at or
below the parseInt maximum of the ids, bump the counter to maximum + 1; a NaN
maximum makes the comparison false, so nothing happens. -/
def bumpNextId (s : ManagerState) : ManagerState :=
  if 0 < s.tasks.length then
    match jsMaxParsed s.tasks with
    | some m => if s.nextId ≤ m then { s with nextId := m + 1 } else s
    | none => s
  else s

/-- addTask: after the redundant rescan, mint the next id, append the new
record (completed = false), persist once, and return the record. -/
def addTask (s : ManagerState) (title : String) (descr : Option String) (due : Option Int) :
    Task × ManagerState × List (List SavedTask) :=
  let s1 := bumpNextId s
  let newTask : Task :=
    { id := intToStr s1.nextId, title := some title, description := descr,
      completed := false, dueDate := due }
  let ts := s1.tasks ++ [newTask]
  (newTask, { tasks := ts, nextId := s1.nextId + 1 }, [saveTasks ts])

/-- getTaskById: first record with the given id. -/
def getTaskById (s : ManagerState) (id : String) : Option Task :=
  s.tasks.find? (fun t => t.id == id)

/-- getAllTasks: the full collection in order. -/
def getAllTasks (s : ManagerState) : List Task := s.tasks

/-- The detail-diffing part of updateTask: for each key present in the update,
record it (with its value) when it differs from the current one — title only
when defined, description by plain comparison, dueDate by comparing the
underlying timestamps.  Returns the accumulated detail updates and whether any
detail changed. -/
def computeDetailUpdates (t : Task) (u : TaskUpdates) : DetailUpdates × Bool :=
  let p1 : DetailUpdates × Bool :=
    match u.title with
    | some (some s) =>
      if some s ≠ t.title then ({ DetailUpdates.empty with title := some (some s) }, true)
      else (DetailUpdates.empty, false)
    | _ => (DetailUpdates.empty, false)
  let p2 : DetailUpdates × Bool :=
    match u.description with
    | some v => if v ≠ t.description then ({ p1.1 with description := some v }, true) else p1
    | none => p1
  match u.dueDate with
  | some v => if v ≠ t.dueDate then ({ p2.1 with dueDate := some v }, true) else p2
  | none => p2

/-- The per-record effect of updateTask on a found record: toggle completion
when the update mentions a differing flag, then apply the changed details;
the boolean reports whether anything changed (and hence whether to persist). -/
def applyUpdate (t : Task) (u : TaskUpdates) : Task × Bool :=
  let c1 : Task × Bool :=
    match u.completed with
    | some c => if t.completed ≠ c then (t.toggleCompletion, true) else (t, false)
    | none => (t, false)
  let d := computeDetailUpdates c1.1 u
  let t2 := if d.2 then c1.1.updateDetails d.1 else c1.1
  (t2, c1.2 || d.2)

/-- Replace the first record with the given id (the in-place mutation of the
record returned by find). -/
def replaceFirst : List Task → String → Task → List Task
  | [], _, _ => []
  | t :: ts, id, t' => if t.id == id then t' :: ts else t :: replaceFirst ts id t'

/-- updateTask: look up the record; on a miss return not-found with no write;
on a hit apply the diffed update, persist exactly once if anything changed,
and return the (possibly unchanged) record. -/
def updateTask (s : ManagerState) (id : String) (u : TaskUpdates) :
    Option Task × ManagerState × List (List SavedTask) :=
  match getTaskById s id with
  | none => (none, s, [])
  | some t =>
    let a := applyUpdate t u
    let ts := replaceFirst s.tasks id a.1
    (some a.1, { s with tasks := ts }, if a.2 then [saveTasks ts] else [])

/-- deleteTask: keep the records whose id differs, report whether the
collection shrank, and persist once exactly when it did. -/
def deleteTask (s : ManagerState) (id : String) : Bool × ManagerState × List (List SavedTask) :=
  let ts := s.tasks.filter (fun t => t.id != id)
  let deleted := decide (ts.length < s.tasks.length)
  (deleted, { s with tasks := ts }, if deleted then [saveTasks ts] else [])

/-- getTasksByCompletion: the records whose completed flag matches, in order. -/
def getTasksByCompletion (s : ManagerState) (c : Bool) : List Task :=
  s.tasks.filter (fun t => t.completed == c)

/-- States reachable from a given state by the manager's mutating calls. -/
inductive ReachableFrom (s0 : ManagerState) : ManagerState → Prop where
  | refl : ReachableFrom s0 s0
  | addStep (s ti de du) : ReachableFrom s0 s → ReachableFrom s0 (addTask s ti de du).2.1
  | updateStep (s id u) : ReachableFrom s0 s → ReachableFrom s0 (updateTask s id u).2.1
  | deleteStep (s id) : ReachableFrom s0 s → ReachableFrom s0 (deleteTask s id).2.1

/-- States reachable from some initialization on an arbitrary blob. -/
def Reachable (s : ManagerState) : Prop :=
  ∃ b, ReachableFrom (initManager b).1 s

/-- A default task, used as the default of positional lookups. -/
def dummyTask : Task :=
  { id := "", title := none, description := none, completed := false, dueDate := none }

/-- A default raw record, used as the default of positional lookups. -/
def dummyRaw : RawTask :=
  { id := none, title := none, description := none, completed := none, dueDate := none }

/-- Whether loading mints a fresh id for this raw record (its stored id is
absent or falsy, i.e. the empty string). -/
def isMinted (r : RawTask) : Bool :=
  match r.id with
  | some s => decide (s = "")
  | none => true

/-- How many of the first `i` raw records get a minted id during loading. -/
def mintedBefore (raws : List RawTask) (i : Nat) : Nat :=
  ((raws.take i).filter isMinted).length

/-- The identifiers of the collection, in order. -/
def idsOf (s : ManagerState) : List String := s.tasks.map Task.id

/-- Every id of the collection that parses numerically is below the counter. -/
def NumBound (s : ManagerState) : Prop :=
  ∀ id ∈ idsOf s, ∀ n, jsParseInt id = some n → n < s.nextId

/-- The identifier invariant: pairwise distinct ids, every numeric id below
the counter. -/
def GoodState (s : ManagerState) : Prop := (idsOf s).Nodup ∧ NumBound s

/-- No record of the collection has the empty string as its id. -/
def IdsNonempty (s : ManagerState) : Prop := ∀ id ∈ idsOf s, id ≠ ""

/-- Whether an update is a no-op for a record: every field it mentions equals
the record's current value (dueDate compared as timestamps). -/
def noOpFor (u : TaskUpdates) (t : Task) : Bool :=
  (match u.completed with
   | some c => c == t.completed
   | none => true) &&
  (match u.title with
   | some x => x == t.title
   | none => true) &&
  (match u.description with
   | some x => x == t.description
   | none => true) &&
  (match u.dueDate with
   | some x => x == t.dueDate
   | none => true)

/-- A raw record with the given stored id, completed value and due-date
string, the other fields absent; used in concrete examples. -/
def mkRaw (id : Option String) (c : Option JsonVal) (d : Option String) : RawTask :=
  { id := id, title := none, description := none, completed := c, dueDate := d }

/- Lemmas about the decimal rendering and parsing model. -/

theorem digitVal_digitChar (n : Nat) (h : n < 10) : digitVal (digitChar n) = n := by
  interval_cases n <;> decide

theorem digitChar_isDigit (n : Nat) (h : n < 10) : (digitChar n).isDigit = true := by
  interval_cases n <;> decide

theorem digitsToNat_append (ds : List Char) (c : Char) :
    digitsToNat (ds ++ [c]) = digitsToNat ds * 10 + digitVal c := by
  simp [digitsToNat, List.foldl_append]

theorem natDigitsAux_congr : ∀ n f1 f2, n < f1 → n < f2 →
    natDigitsAux f1 n = natDigitsAux f2 n := by
  intro n
  induction n using Nat.strong_induction_on with
  | _ n ih =>
    intro f1 f2 h1 h2
    cases f1 with
    | zero => omega
    | succ g1 =>
      cases f2 with
      | zero => omega
      | succ g2 =>
        simp only [natDigitsAux]
        by_cases h10 : n < 10
        · simp [h10]
        · rw [if_neg h10, if_neg h10]
          have hlt : n / 10 < n := Nat.div_lt_self (by omega) (by omega)
          rw [ih (n / 10) hlt g1 g2 (by omega) (by omega)]

theorem natDigits_eq (n : Nat) : natDigits n =
    if n < 10 then [digitChar n] else natDigits (n / 10) ++ [digitChar (n % 10)] := by
  show natDigitsAux (n + 1) n = _
  rw [natDigitsAux]
  by_cases h10 : n < 10
  · simp [h10]
  · rw [if_neg h10, if_neg h10]
    have hlt : n / 10 < n := Nat.div_lt_self (by omega) (by omega)
    rw [natDigitsAux_congr (n / 10) n (n / 10 + 1) (by omega) (by omega)]
    rfl

theorem digitsToNat_natDigits (n : Nat) : digitsToNat (natDigits n) = n := by
  induction n using Nat.strong_induction_on with
  | _ n ih =>
    rw [natDigits_eq]
    split
    · next h =>
      simp [digitsToNat, digitVal_digitChar n h]
    · next h =>
      rw [digitsToNat_append, ih (n / 10) (Nat.div_lt_self (by omega) (by omega)),
        digitVal_digitChar (n % 10) (by omega)]
      omega

theorem natDigits_ne_nil (n : Nat) : natDigits n ≠ [] := by
  rw [natDigits_eq]; split <;> simp

theorem natDigits_all_isDigit (n : Nat) : ∀ c ∈ natDigits n, c.isDigit = true := by
  induction n using Nat.strong_induction_on with
  | _ n ih =>
    rw [natDigits_eq]
    split
    · next h =>
      intro c hc
      simp only [List.mem_singleton] at hc
      subst hc
      exact digitChar_isDigit n h
    · next h =>
      intro c hc
      rw [List.mem_append] at hc
      rcases hc with hc | hc
      · exact ih (n / 10) (Nat.div_lt_self (by omega) (by omega)) c hc
      · simp only [List.mem_singleton] at hc
        subst hc
        exact digitChar_isDigit (n % 10) (by omega)

theorem jsParseNat_natDigits (n : Nat) : jsParseNat (natDigits n) = some n := by
  have htw : (natDigits n).takeWhile Char.isDigit = natDigits n :=
    List.takeWhile_eq_self_iff.mpr (natDigits_all_isDigit n)
  have hne : (natDigits n).isEmpty = false := by
    cases h : natDigits n with
    | nil => exact absurd h (natDigits_ne_nil n)
    | cons c t => rfl
  simp only [jsParseNat, htw, hne, Bool.false_eq_true, if_false, digitsToNat_natDigits]

theorem isDigit_ne_sign (c : Char) (h : c.isDigit = true) : c ≠ '-' ∧ c ≠ '+' := by
  constructor <;> intro he <;> subst he <;> exact absurd h (by decide)

theorem jsParseIntChars_natDigits (n : Nat) : jsParseIntChars (natDigits n) = some (n : Int) := by
  cases hnd : natDigits n with
  | nil => exact absurd hnd (natDigits_ne_nil n)
  | cons c t =>
    have hd : c.isDigit = true := by
      apply natDigits_all_isDigit n
      rw [hnd]; exact List.mem_cons_self c t
    obtain ⟨h1, h2⟩ := isDigit_ne_sign c hd
    simp only [jsParseIntChars, if_neg h1, if_neg h2]
    rw [← hnd, jsParseNat_natDigits]

theorem jsParseIntChars_intChars (i : Int) : jsParseIntChars (intChars i) = some i := by
  by_cases hneg : i < 0
  · rw [intChars, if_pos hneg]
    simp only [jsParseIntChars, if_pos rfl, jsParseNat_natDigits, if_true]
    congr 1
    omega
  · rw [intChars, if_neg hneg, jsParseIntChars_natDigits]
    congr 1
    omega

theorem isDigit_not_ws (c : Char) (h : c.isDigit = true) : jsWhitespace c = false := by
  simp only [jsWhitespace, Bool.or_eq_false_iff, beq_eq_false_iff_ne, ne_eq]
  refine ⟨⟨⟨?_, ?_⟩, ?_⟩, ?_⟩ <;> intro he <;> subst he <;> exact absurd h (by decide)

theorem dropWhile_ws_intChars (i : Int) : (intChars i).dropWhile jsWhitespace = intChars i := by
  by_cases hneg : i < 0
  · simp only [intChars, if_pos hneg]
    rw [List.dropWhile_cons]
    simp [jsWhitespace]
  · simp only [intChars, if_neg hneg]
    cases hnd : natDigits i.toNat with
    | nil => exact absurd hnd (natDigits_ne_nil _)
    | cons c t =>
      have hd : c.isDigit = true := by
        apply natDigits_all_isDigit i.toNat
        rw [hnd]; exact List.mem_cons_self c t
      rw [List.dropWhile_cons, isDigit_not_ws c hd]
      simp

theorem toList_mk (l : List Char) : (String.mk l).toList = l := rfl

theorem jsParseInt_intToStr (i : Int) : jsParseInt (intToStr i) = some i := by
  rw [jsParseInt, intToStr, toList_mk, dropWhile_ws_intChars, jsParseIntChars_intChars]

theorem intChars_ne_nil (i : Int) : intChars i ≠ [] := by
  rw [intChars]
  split
  · simp
  · exact natDigits_ne_nil _

theorem intToStr_ne_empty (i : Int) : intToStr i ≠ "" := by
  intro h
  have h2 : (intToStr i).toList = "".toList := by rw [h]
  rw [intToStr, toList_mk] at h2
  exact intChars_ne_nil i h2

theorem parseDate_toISOString (d : Int) : parseDate (toISOString d) = some d := by
  rw [parseDate, toISOString, toList_mk]
  exact jsParseIntChars_intChars d

theorem toISOString_ne_empty (d : Int) : toISOString d ≠ "" := by
  intro h
  have h2 : (toISOString d).toList = "".toList := by rw [h]
  rw [toISOString, toList_mk] at h2
  exact absurd h2 (by simp)

/- Lemmas about loading and reconstruction. -/

theorem chooseId_nid (nid : Int) (r : RawTask) :
    (chooseId nid r).2 = if isMinted r then nid + 1 else nid := by
  rcases r with ⟨rid, rt, rd, rc, rdd⟩
  unfold chooseId isMinted
  rcases rid with _ | s
  · simp
  · by_cases hs : s = "" <;> simp [hs]

theorem chooseId_minted (nid : Int) (r : RawTask) (h : isMinted r = true) :
    (chooseId nid r).1 = intToStr nid := by
  rcases r with ⟨rid, rt, rd, rc, rdd⟩
  unfold chooseId
  unfold isMinted at h
  rcases rid with _ | s
  · rfl
  · simp only [decide_eq_true_eq] at h
    simp [h]

theorem chooseId_kept (nid : Int) (r : RawTask) (s : String) (h : r.id = some s)
    (hs : s ≠ "") : (chooseId nid r).1 = s := by
  unfold chooseId
  rw [h]
  simp [hs]

theorem chooseId_ne_empty (nid : Int) (r : RawTask) : (chooseId nid r).1 ≠ "" := by
  rcases r with ⟨rid, rt, rd, rc, rdd⟩
  unfold chooseId
  rcases rid with _ | s
  · exact intToStr_ne_empty nid
  · by_cases hs : s = ""
    · simp only [hs, if_pos rfl]
      exact intToStr_ne_empty nid
    · simp [hs]

theorem reconstructOne_nid (nid : Int) (r : RawTask) :
    (reconstructOne nid r).2.1 = if isMinted r then nid + 1 else nid :=
  chooseId_nid nid r

theorem reconstructAll_length (raws : List RawTask) :
    ∀ nid, (reconstructAll raws nid).1.length = raws.length := by
  induction raws with
  | nil => intro nid; rfl
  | cons r rs ih => intro nid; simp [reconstructAll, ih]

theorem mintedBefore_zero (raws : List RawTask) : mintedBefore raws 0 = 0 := by
  simp [mintedBefore]

theorem mintedBefore_succ (r : RawTask) (rs : List RawTask) (i : Nat) :
    mintedBefore (r :: rs) (i + 1) = (if isMinted r then 1 else 0) + mintedBefore rs i := by
  simp only [mintedBefore, List.take_succ_cons, List.filter_cons]
  split <;> simp [Nat.add_comm]

theorem reconstructAll_getD (raws : List RawTask) :
    ∀ nid i, i < raws.length →
      (reconstructAll raws nid).1.getD i dummyTask =
        (reconstructOne (nid + (mintedBefore raws i : Int)) (raws.getD i dummyRaw)).1 := by
  induction raws with
  | nil => intro nid i h; simp at h
  | cons r rs ih =>
    intro nid i h
    cases i with
    | zero => simp [reconstructAll, mintedBefore_zero]
    | succ i =>
      have h' : i < rs.length := by simpa using h
      simp only [reconstructAll, List.getD_cons_succ]
      rw [ih _ i h']
      congr 2
      rw [reconstructOne_nid, mintedBefore_succ]
      split_ifs <;> push_cast <;> omega

theorem reconstructAll_logs_mem (raws : List RawTask) :
    ∀ nid i, i < raws.length →
      ∀ e ∈ (reconstructOne (nid + (mintedBefore raws i : Int)) (raws.getD i dummyRaw)).2.2,
        e ∈ (reconstructAll raws nid).2.2 := by
  induction raws with
  | nil => intro nid i h; simp at h
  | cons r rs ih =>
    intro nid i h e he
    cases i with
    | zero =>
      simp only [mintedBefore_zero, Nat.cast_zero, add_zero, List.getD_cons_zero] at he
      simp only [reconstructAll, List.mem_append]
      exact Or.inl he
    | succ i =>
      have h' : i < rs.length := by simpa using h
      simp only [reconstructAll, List.mem_append]
      refine Or.inr (ih _ i h' e ?_)
      have harith : (reconstructOne nid r).2.1 + (mintedBefore rs i : Int) =
          nid + (mintedBefore (r :: rs) (i + 1) : Int) := by
        rw [reconstructOne_nid, mintedBefore_succ]
        split_ifs <;> push_cast <;> omega
      rw [harith]
      simpa using he

theorem loadFromRaw_tasks (raws : List RawTask) :
    (loadFromRaw raws).1.tasks = (reconstructAll raws 1).1 := by
  unfold loadFromRaw
  dsimp only
  split <;> rfl

theorem loadFromRaw_logs (raws : List RawTask) :
    (loadFromRaw raws).2 =
      (reconstructAll raws 1).2.2 ++ [LogEntry.info "Tasks loaded successfully."] := by
  unfold loadFromRaw
  dsimp only
  split <;> rfl

theorem loadFromRaw_nextId (raws : List RawTask) (h : raws ≠ []) :
    (loadFromRaw raws).1.nextId =
      (if maxNumericOr0 (reconstructAll raws 1).1 < 1 then 1
       else maxNumericOr0 (reconstructAll raws 1).1 + 1) := by
  have hlen : 0 < (reconstructAll raws 1).1.length := by
    rw [reconstructAll_length]
    cases raws with
    | nil => exact absurd rfl h
    | cons r rs => simp
  unfold loadFromRaw
  dsimp only
  rw [if_pos hlen]

/- The maximum over the NaN-to-0 numeric id values bounds every member. -/

theorem le_foldl_max (l : List Task) (init : Int) :
    init ≤ l.foldl (fun m t' => max m (numericOr0 t')) init := by
  induction l generalizing init with
  | nil => exact le_refl init
  | cons t l ih => exact le_trans (le_max_left _ _) (ih (max init (numericOr0 t)))

theorem mem_le_foldl_max (l : List Task) (t : Task) (h : t ∈ l) :
    ∀ init, numericOr0 t ≤ l.foldl (fun m t' => max m (numericOr0 t')) init := by
  induction l with
  | nil => cases h
  | cons a l ih =>
    intro init
    rcases List.mem_cons.mp h with rfl | h'
    · exact le_trans (le_max_right _ _) (le_foldl_max l _)
    · exact ih h' _

theorem numericOr0_le_max (ts : List Task) (t : Task) (h : t ∈ ts) :
    numericOr0 t ≤ maxNumericOr0 ts := by
  cases ts with
  | nil => cases h
  | cons a l =>
    rcases List.mem_cons.mp h with rfl | h'
    · exact le_foldl_max l _
    · exact mem_le_foldl_max l t h' _

theorem loadFromRaw_bound (raws : List RawTask) : NumBound (loadFromRaw raws).1 := by
  intro id hid n hparse
  rcases raws with _ | ⟨r, rs⟩
  · simp [idsOf, loadFromRaw, reconstructAll] at hid
  · rw [idsOf, loadFromRaw_tasks] at hid
    obtain ⟨t, ht, rfl⟩ := List.mem_map.mp hid
    have h1 : numericOr0 t ≤ maxNumericOr0 (reconstructAll (r :: rs) 1).1 :=
      numericOr0_le_max _ t ht
    have h2 : numericOr0 t = n := by simp [numericOr0, hparse]
    rw [loadFromRaw_nextId (r :: rs) (by simp)]
    split_ifs with hlt <;> omega

/- The NaN-poisoned maximum used by addTask is attained by some id. -/

theorem jsMaxParsed_foldl_attain (l : List Task) :
    ∀ acc m, l.foldl (fun acc t' => jsNanMax acc (jsParseInt t'.id)) acc = some m →
      acc = some m ∨ ∃ t ∈ l, jsParseInt t.id = some m := by
  induction l with
  | nil => intro acc m h; exact Or.inl h
  | cons a l ih =>
    intro acc m h
    rw [List.foldl_cons] at h
    rcases ih _ _ h with h1 | ⟨t, ht, hp⟩
    · rcases hacc : acc with _ | x
      · rw [hacc] at h1
        rcases hpa : jsParseInt a.id with _ | y <;> rw [hpa] at h1 <;>
          simp [jsNanMax] at h1
      · rcases hpa : jsParseInt a.id with _ | y
        · rw [hacc, hpa] at h1
          simp [jsNanMax] at h1
        · rw [hacc, hpa] at h1
          simp only [jsNanMax, Option.some.injEq] at h1
          rcases max_choice x y with hm | hm
          · left
            rw [← h1, hm]
          · right
            exact ⟨a, List.mem_cons_self a l, by rw [hpa, ← h1, hm]⟩
    · exact Or.inr ⟨t, List.mem_cons_of_mem a ht, hp⟩

theorem jsMaxParsed_attain (ts : List Task) (m : Int) (h : jsMaxParsed ts = some m) :
    ∃ t ∈ ts, jsParseInt t.id = some m := by
  cases ts with
  | nil => exact absurd h (by simp [jsMaxParsed])
  | cons a l =>
    unfold jsMaxParsed at h
    rcases jsMaxParsed_foldl_attain l _ _ h with h1 | ⟨t, ht, hp⟩
    · exact ⟨a, List.mem_cons_self a l, h1⟩
    · exact ⟨t, List.mem_cons_of_mem a ht, hp⟩

theorem bumpNextId_of_bound (s : ManagerState) (h : NumBound s) : bumpNextId s = s := by
  unfold bumpNextId
  split
  · split
    · next m heq =>
      obtain ⟨t, ht, hp⟩ := jsMaxParsed_attain _ _ heq
      have hlt : m < s.nextId := h t.id (List.mem_map_of_mem Task.id ht) m hp
      rw [if_neg (by omega)]
    · rfl
  · rfl

theorem addTask_of_bound (s : ManagerState) (ti : String) (de : Option String)
    (du : Option Int) (h : NumBound s) :
    addTask s ti de du =
      ({ id := intToStr s.nextId, title := some ti, description := de,
         completed := false, dueDate := du },
       { tasks := s.tasks ++
           [{ id := intToStr s.nextId, title := some ti, description := de,
              completed := false, dueDate := du }],
         nextId := s.nextId + 1 },
       [saveTasks (s.tasks ++
           [{ id := intToStr s.nextId, title := some ti, description := de,
              completed := false, dueDate := du }])]) := by
  unfold addTask
  rw [bumpNextId_of_bound s h]

/- The mutating operations never change a record's id, and updateTask and
deleteTask relate the id list of the new state to the old one. -/

theorem updateDetails_id (t : Task) (d : DetailUpdates) : (t.updateDetails d).id = t.id := by
  rcases d with ⟨dt, dd, ddd⟩
  unfold Task.updateDetails
  rcases dt with _ | (_ | s) <;> rcases dd with _ | v <;> rcases ddd with _ | w <;> rfl

theorem toggleCompletion_id (t : Task) : t.toggleCompletion.id = t.id := rfl

theorem applyUpdate_id (t : Task) (u : TaskUpdates) : (applyUpdate t u).1.id = t.id := by
  unfold applyUpdate
  cases hc : u.completed <;> dsimp only <;> split_ifs <;>
    simp [updateDetails_id, toggleCompletion_id]

theorem replaceFirst_map_id (id : String) (t' : Task) :
    ∀ (l : List Task) (t : Task), l.find? (fun x => x.id == id) = some t → t'.id = t.id →
      (replaceFirst l id t').map Task.id = l.map Task.id := by
  intro l
  induction l with
  | nil => intro t h; simp at h
  | cons a l ih =>
    intro t hf he
    cases hb : (a.id == id) with
    | true =>
      simp only [List.find?_cons, hb, Option.some.injEq] at hf
      subst hf
      simp [replaceFirst, hb, he]
    | false =>
      simp only [List.find?_cons, hb] at hf
      simp only [replaceFirst, hb, Bool.false_eq_true, if_false, List.map_cons]
      rw [ih t hf he]

theorem replaceFirst_self (id : String) :
    ∀ (l : List Task) (t : Task), l.find? (fun x => x.id == id) = some t →
      replaceFirst l id t = l := by
  intro l
  induction l with
  | nil => intro t h; simp at h
  | cons a l ih =>
    intro t hf
    cases hb : (a.id == id) with
    | true =>
      simp only [List.find?_cons, hb, Option.some.injEq] at hf
      subst hf
      simp [replaceFirst, hb]
    | false =>
      simp only [List.find?_cons, hb] at hf
      simp only [replaceFirst, hb, Bool.false_eq_true, if_false]
      rw [ih t hf]

theorem updateTask_ids (s : ManagerState) (id : String) (u : TaskUpdates) :
    idsOf (updateTask s id u).2.1 = idsOf s := by
  unfold updateTask
  cases hf : getTaskById s id with
  | none => rfl
  | some t =>
    dsimp only [idsOf]
    exact replaceFirst_map_id id _ s.tasks t hf (applyUpdate_id t u)

theorem updateTask_nextId (s : ManagerState) (id : String) (u : TaskUpdates) :
    (updateTask s id u).2.1.nextId = s.nextId := by
  unfold updateTask
  cases hf : getTaskById s id with
  | none => rfl
  | some t => rfl

theorem map_id_filter (l : List Task) (p : String → Bool) :
    (l.filter (fun t => p t.id)).map Task.id = (l.map Task.id).filter p := by
  induction l with
  | nil => rfl
  | cons a l ih => by_cases hpa : p a.id = true <;> simp [List.filter_cons, hpa, ih]

theorem deleteTask_ids (s : ManagerState) (id : String) :
    idsOf (deleteTask s id).2.1 = (idsOf s).filter (fun x => x != id) := by
  unfold deleteTask idsOf
  dsimp only
  exact map_id_filter s.tasks (fun x => x != id)

theorem deleteTask_nextId (s : ManagerState) (id : String) :
    (deleteTask s id).2.1.nextId = s.nextId := rfl

/- Preservation of the identifier invariant. -/

theorem good_addTask (s : ManagerState) (ti : String) (de : Option String)
    (du : Option Int) (h : GoodState s) : GoodState (addTask s ti de du).2.1 := by
  obtain ⟨hnd, hb⟩ := h
  rw [addTask_of_bound s ti de du hb]
  constructor
  · dsimp only [idsOf]
    rw [List.map_append]
    rw [List.nodup_append]
    refine ⟨hnd, List.nodup_singleton _, ?_⟩
    intro x hx hx'
    simp only [List.map_cons, List.map_nil, List.mem_singleton] at hx'
    subst hx'
    have hp : jsParseInt (intToStr s.nextId) = some s.nextId := jsParseInt_intToStr s.nextId
    have := hb _ hx s.nextId hp
    omega
  · intro x hx n hp
    dsimp only [idsOf] at hx
    rw [List.map_append] at hx
    rcases List.mem_append.mp hx with hx | hx
    · have := hb x hx n hp
      dsimp only
      omega
    · simp only [List.map_cons, List.map_nil, List.mem_singleton] at hx
      subst hx
      rw [jsParseInt_intToStr s.nextId] at hp
      simp only [Option.some.injEq] at hp
      dsimp only
      omega

theorem good_updateTask (s : ManagerState) (id : String) (u : TaskUpdates)
    (h : GoodState s) : GoodState (updateTask s id u).2.1 := by
  obtain ⟨hnd, hb⟩ := h
  constructor
  · rw [updateTask_ids]
    exact hnd
  · intro x hx n hp
    rw [updateTask_ids] at hx
    rw [updateTask_nextId]
    exact hb x hx n hp

theorem good_deleteTask (s : ManagerState) (id : String) (h : GoodState s) :
    GoodState (deleteTask s id).2.1 := by
  obtain ⟨hnd, hb⟩ := h
  constructor
  · rw [deleteTask_ids]
    exact List.Nodup.sublist (List.filter_sublist _) hnd
  · intro x hx n hp
    rw [deleteTask_ids] at hx
    rw [deleteTask_nextId]
    exact hb x (List.mem_of_mem_filter hx) n hp

theorem good_reach (s0 s : ManagerState) (h0 : GoodState s0) (h : ReachableFrom s0 s) :
    GoodState s := by
  induction h with
  | refl => exact h0
  | addStep s ti de du _ ih => exact good_addTask s ti de du ih
  | updateStep s id u _ ih => exact good_updateTask s id u ih
  | deleteStep s id _ ih => exact good_deleteTask s id ih

theorem initManager_bound (b : Blob) : NumBound (initManager b).1 := by
  cases b with
  | absent => intro x hx n hp; simp [initManager, idsOf] at hx
  | blank => intro x hx n hp; simp [initManager, idsOf] at hx
  | invalid => intro x hx n hp; simp [initManager, idsOf] at hx
  | parsed raws => exact loadFromRaw_bound raws

/- Preservation of non-empty ids (every reachable state has them). -/

theorem reconstructAll_ids_ne_empty (raws : List RawTask) :
    ∀ nid t, t ∈ (reconstructAll raws nid).1 → t.id ≠ "" := by
  induction raws with
  | nil => intro nid t ht; simp [reconstructAll] at ht
  | cons r rs ih =>
    intro nid t ht
    simp only [reconstructAll, List.mem_cons] at ht
    rcases ht with rfl | ht
    · exact chooseId_ne_empty nid r
    · exact ih _ t ht

theorem initManager_ids_ne_empty (b : Blob) : IdsNonempty (initManager b).1 := by
  cases b with
  | absent => intro x hx; simp [initManager, idsOf] at hx
  | blank => intro x hx; simp [initManager, idsOf] at hx
  | invalid => intro x hx; simp [initManager, idsOf] at hx
  | parsed raws =>
    intro x hx
    rw [idsOf] at hx
    have hx2 : x ∈ List.map Task.id (loadFromRaw raws).1.tasks := hx
    rw [loadFromRaw_tasks] at hx2
    obtain ⟨t, ht, rfl⟩ := List.mem_map.mp hx2
    exact reconstructAll_ids_ne_empty raws 1 t ht

theorem nonempty_addTask (s : ManagerState) (ti : String) (de : Option String)
    (du : Option Int) (h : IdsNonempty s) : IdsNonempty (addTask s ti de du).2.1 := by
  intro x hx
  unfold addTask at hx
  dsimp only [idsOf] at hx
  rw [List.map_append] at hx
  rcases List.mem_append.mp hx with hx | hx
  · exact h x (by unfold bumpNextId at hx; dsimp only [idsOf]; split at hx <;>
      first
        | exact hx
        | (split at hx <;> first | exact hx | (split at hx <;> exact hx)))
  · simp only [List.map_cons, List.map_nil, List.mem_singleton] at hx
    subst hx
    exact intToStr_ne_empty _

theorem nonempty_reach (s0 s : ManagerState) (h0 : IdsNonempty s0)
    (h : ReachableFrom s0 s) : IdsNonempty s := by
  induction h with
  | refl => exact h0
  | addStep s ti de du _ ih => exact nonempty_addTask s ti de du ih
  | updateStep s id u _ ih =>
    intro x hx
    rw [updateTask_ids] at hx
    exact ih x hx
  | deleteStep s id _ ih =>
    intro x hx
    rw [deleteTask_ids] at hx
    exact ih x (List.mem_of_mem_filter hx)

/- Round-trip lemmas: reloading the serialization of a collection whose ids
are non-empty reconstructs the very same records. -/

theorem reconstructOne_roundtrip (nid : Int) (t : Task) (h : t.id ≠ "") :
    reconstructOne nid (savedToRaw (serTask t)) = (t, nid, []) := by
  rcases t with ⟨id, ti, de, co, du⟩
  simp only at h
  unfold serTask savedToRaw reconstructOne chooseId parseDue
  dsimp only
  rw [if_neg h]
  cases du with
  | none =>
    dsimp only
    cases co <;> simp
  | some d =>
    dsimp only
    rw [if_neg (toISOString_ne_empty d), parseDate_toISOString]
    cases co <;> simp

theorem reconstructAll_roundtrip :
    ∀ (ts : List Task), (∀ t ∈ ts, t.id ≠ "") →
      ∀ nid, reconstructAll ((saveTasks ts).map savedToRaw) nid = (ts, nid, []) := by
  intro ts
  induction ts with
  | nil => intro _ nid; rfl
  | cons t ts ih =>
    intro h nid
    have ht : t.id ≠ "" := h t (List.mem_cons_self t ts)
    have h' : ∀ x ∈ ts, x.id ≠ "" := fun x hx => h x (List.mem_cons_of_mem t hx)
    simp only [saveTasks, List.map_cons, reconstructAll]
    rw [reconstructOne_roundtrip nid t ht]
    dsimp only
    have := ih h' nid
    simp only [saveTasks] at this
    rw [this]
    rfl

theorem roundTrip_of_nonempty (s : ManagerState) (h : IdsNonempty s) :
    (initManager (Blob.parsed ((saveTasks s.tasks).map savedToRaw))).1.tasks = s.tasks := by
  have h' : ∀ t ∈ s.tasks, t.id ≠ "" := fun t ht => h t.id (List.mem_map_of_mem Task.id ht)
  show (loadFromRaw ((saveTasks s.tasks).map savedToRaw)).1.tasks = s.tasks
  rw [loadFromRaw_tasks, reconstructAll_roundtrip s.tasks h' 1]

/- No-op updates change nothing and trigger no write. -/

theorem applyUpdate_noop (t : Task) (u : TaskUpdates) (h : noOpFor u t = true) :
    applyUpdate t u = (t, false) := by
  rcases u with ⟨uc, ut, ud, udd⟩
  unfold noOpFor at h
  dsimp only at h
  rcases uc with _ | c <;> rcases ut with _ | (_ | x) <;> rcases ud with _ | y <;>
    rcases udd with _ | z <;>
    simp only [Bool.and_eq_true, beq_iff_eq] at h <;>
    unfold applyUpdate computeDetailUpdates <;>
    dsimp only <;>
    simp_all [DetailUpdates.empty]

theorem updateTask_noop (s : ManagerState) (id : String) (u : TaskUpdates) (t : Task)
    (hf : getTaskById s id = some t) (hno : noOpFor u t = true) :
    updateTask s id u = (some t, s, []) := by
  unfold updateTask
  rw [hf]
  dsimp only
  rw [applyUpdate_noop t u hno]
  dsimp only
  have hf' : s.tasks.find? (fun x => x.id == id) = some t := hf
  rw [replaceFirst_self id s.tasks t hf']
  rfl

/- deleteTask: the shrink test is equivalent to the existence of a match, and
on duplicate-free ids the filter agrees with erasing the first match. -/

theorem length_filter_lt_iff_any (l : List Task) (p : Task → Bool) :
    (l.filter p).length < l.length ↔ l.any (fun a => !p a) = true := by
  induction l with
  | nil => simp
  | cons a l ih =>
    cases hpa : p a with
    | true =>
      simp only [List.filter_cons, hpa, if_pos, List.length_cons, List.any_cons,
        Nat.add_lt_add_iff_right, Bool.not_true, Bool.false_or]
      exact ih
    | false =>
      simp only [List.filter_cons, hpa, Bool.false_eq_true, if_false, List.length_cons,
        List.any_cons, Bool.not_false, Bool.true_or, iff_true]
      exact Nat.lt_succ_of_le (List.length_filter_le p l)

theorem filter_ne_eq_eraseP (id : String) :
    ∀ l : List Task, (l.map Task.id).Nodup →
      l.filter (fun t => t.id != id) = l.eraseP (fun t => t.id == id) := by
  intro l
  induction l with
  | nil => intro _; rfl
  | cons a l ih =>
    intro hnd
    rw [List.map_cons, List.nodup_cons] at hnd
    obtain ⟨ha, hl⟩ := hnd
    cases hb : (a.id == id) with
    | true =>
      have haid : a.id = id := by simpa using hb
      have hcond : (a.id != id) = false := by simp [bne, hb]
      rw [List.filter_cons, hcond, List.eraseP_cons, hb, cond_true]
      simp only [Bool.false_eq_true, if_false]
      rw [List.filter_eq_self]
      intro x hx
      have hxa : x.id ≠ id := by
        intro he
        apply ha
        have hax : a.id = x.id := by rw [haid, he]
        rw [hax]
        exact List.mem_map_of_mem Task.id hx
      simp [bne, hxa]
    | false =>
      have hcond : (a.id != id) = true := by simp [bne, hb]
      rw [List.filter_cons, hcond, if_pos rfl, List.eraseP_cons, hb, cond_false, ih hl]

theorem initManager_parsed_tasks (raws : List RawTask) :
    (initManager (Blob.parsed raws)).1.tasks = (reconstructAll raws 1).1 :=
  loadFromRaw_tasks raws

theorem initManager_parsed_logs (raws : List RawTask) :
    (initManager (Blob.parsed raws)).2 =
      (reconstructAll raws 1).2.2 ++ [LogEntry.info "Tasks loaded successfully."] :=
  loadFromRaw_logs raws

theorem deleteTask_eq (s : ManagerState) (id : String) :
    deleteTask s id =
      (decide ((s.tasks.filter (fun t => t.id != id)).length < s.tasks.length),
       { tasks := s.tasks.filter (fun t => t.id != id), nextId := s.nextId },
       if decide ((s.tasks.filter (fun t => t.id != id)).length < s.tasks.length) = true
         then [saveTasks (s.tasks.filter (fun t => t.id != id))] else []) := rfl

/- The claims. -/

/-- Claim C1 as stated is false on the code: Initialize keeps stored
identifiers verbatim, so persisted data that already carries two records with
the same id yields a reachable state (an Initialize result followed by no
calls) whose identifiers are not pairwise distinct. -/
theorem c1_counterexample :
    Reachable (initManager (Blob.parsed
      [mkRaw (some "1") none none, mkRaw (some "1") none none])).1 ∧
    ¬ (idsOf (initManager (Blob.parsed
      [mkRaw (some "1") none none, mkRaw (some "1") none none])).1).Nodup :=
  ⟨⟨Blob.parsed [mkRaw (some "1") none none, mkRaw (some "1") none none],
    ReachableFrom.refl⟩, by decide⟩

/-- Claim C1 (amended): whenever the records reconstructed by Initialize have
pairwise distinct identifiers — which holds unless the persisted data itself
contains duplicate or colliding ids — every state reached from it by any
sequence of AddTask, UpdateTask and DeleteTask calls has pairwise distinct
identifiers. -/
theorem c1_unique_ids (b : Blob) (s : ManagerState)
    (h0 : (idsOf (initManager b).1).Nodup)
    (h : ReachableFrom (initManager b).1 s) : (idsOf s).Nodup :=
  (good_reach (initManager b).1 s ⟨h0, initManager_bound b⟩ h).1

/-- Witness for the amended claim C1 at a concrete input: loading one record
with id 7 and then adding a task keeps the ids pairwise distinct. -/
theorem c1_witness :
    (idsOf (initManager (Blob.parsed [mkRaw (some "7") none none])).1).Nodup ∧
    (idsOf (addTask (initManager (Blob.parsed [mkRaw (some "7") none none])).1
      "t" none none).2.1).Nodup :=
  ⟨by decide,
   c1_unique_ids (Blob.parsed [mkRaw (some "7") none none]) _ (by decide)
     (ReachableFrom.addStep _ "t" none none ReachableFrom.refl)⟩

/-- Claim C2 as stated is false on the code: deleteTask filters out every
record whose id matches, not only the first, and a collection with duplicate
ids is reachable, so the result differs from erasing only the first match. -/
theorem c2_counterexample :
    Reachable (initManager (Blob.parsed
      [mkRaw (some "1") none none, mkRaw (some "1") none none])).1 ∧
    (deleteTask (initManager (Blob.parsed
      [mkRaw (some "1") none none, mkRaw (some "1") none none])).1 "1").2.1.tasks ≠
      ((initManager (Blob.parsed
        [mkRaw (some "1") none none, mkRaw (some "1") none none])).1.tasks.eraseP
          (fun t => t.id == "1")) :=
  ⟨⟨Blob.parsed [mkRaw (some "1") none none, mkRaw (some "1") none none],
    ReachableFrom.refl⟩, by decide⟩

/-- Claim C2 (amended): DeleteTask(id) removes every record whose identifier
equals id — which is exactly the first match whenever identifiers are pairwise
distinct — leaves all other records with their original field values and
relative order (the remaining collection is the filtered original), leaves the
counter alone, returns true exactly when some record matched, persists the
full collection once when it removed something, and performs no write
otherwise. -/
theorem c2_delete (s : ManagerState) (id : String) :
    (deleteTask s id).2.1.tasks = s.tasks.filter (fun t => t.id != id) ∧
    (deleteTask s id).2.1.nextId = s.nextId ∧
    ((deleteTask s id).1 = true ↔ s.tasks.any (fun t => t.id == id) = true) ∧
    ((deleteTask s id).1 = true →
      (deleteTask s id).2.2 = [saveTasks (deleteTask s id).2.1.tasks]) ∧
    ((deleteTask s id).1 = false → (deleteTask s id).2.2 = []) ∧
    ((s.tasks.map Task.id).Nodup →
      (deleteTask s id).2.1.tasks = s.tasks.eraseP (fun t => t.id == id)) := by
  have hfun : (fun a : Task => !(a.id != id)) = (fun a => a.id == id) := by
    funext a
    simp [bne]
  refine ⟨rfl, rfl, ?_, ?_, ?_, fun hnd => filter_ne_eq_eraseP id s.tasks hnd⟩
  · rw [deleteTask_eq]
    dsimp only
    rw [decide_eq_true_eq, length_filter_lt_iff_any, hfun]
  · intro h
    rw [deleteTask_eq] at h ⊢
    dsimp only at h ⊢
    rw [if_pos h]
  · intro h
    rw [deleteTask_eq] at h ⊢
    dsimp only at h ⊢
    rw [if_neg (by rw [h]; exact Bool.false_ne_true)]

/-- Witness for the amended claim C2 at a concrete input: deleting the only
task leaves the filtered (empty) collection. -/
theorem c2_witness :
    (deleteTask (addTask (initManager Blob.absent).1 "a" none none).2.1 "1").2.1.tasks =
      ((addTask (initManager Blob.absent).1 "a" none none).2.1.tasks.filter
        (fun t => t.id != "1")) :=
  (c2_delete (addTask (initManager Blob.absent).1 "a" none none).2.1 "1").1

/-- Claim C3 as stated is false on the code: a stored identifier that is
present but empty is not kept verbatim — the truthiness test `rawTask.id ?`
treats it like an absent one, and a fresh identifier is minted instead. -/
theorem c3_counterexample :
    (mkRaw (some "") none none).id = some "" ∧
    ((initManager (Blob.parsed [mkRaw (some "") none none])).1.tasks.getD 0
      dummyTask).id = "1" ∧
    ("1" : String) ≠ "" :=
  ⟨rfl, rfl, by decide⟩

/-- Claim C3 (amended): during Initialize, an entry whose stored identifier is
a non-empty string keeps it verbatim; an entry whose stored identifier is
absent or empty gets an identifier minted from the counter — the decimal
rendering of one plus the number of earlier entries that also minted. -/
theorem c3_load_ids (raws : List RawTask) (i : Nat) (h : i < raws.length) :
    (∀ s, (raws.getD i dummyRaw).id = some s → s ≠ "" →
      ((initManager (Blob.parsed raws)).1.tasks.getD i dummyTask).id = s) ∧
    (((raws.getD i dummyRaw).id = none ∨ (raws.getD i dummyRaw).id = some "") →
      ((initManager (Blob.parsed raws)).1.tasks.getD i dummyTask).id =
        intToStr (1 + (mintedBefore raws i : Int))) := by
  rw [initManager_parsed_tasks, reconstructAll_getD raws 1 i h]
  constructor
  · intro s hs hne
    show (chooseId (1 + (mintedBefore raws i : Int)) (raws.getD i dummyRaw)).1 = s
    exact chooseId_kept _ _ s hs hne
  · intro hm
    show (chooseId (1 + (mintedBefore raws i : Int)) (raws.getD i dummyRaw)).1 = _
    apply chooseId_minted
    unfold isMinted
    rcases hm with hm | hm <;> rw [hm] <;> simp

/-- Witness for the amended claim C3 at a concrete input: the first entry of a
two-entry blob has no stored id and receives the minted id for counter 1. -/
theorem c3_witness :
    ((initManager (Blob.parsed [mkRaw none none none,
      mkRaw (some "alpha") none none])).1.tasks.getD 0 dummyTask).id =
      intToStr (1 + (mintedBefore [mkRaw none none none,
        mkRaw (some "alpha") none none] 0 : Int)) :=
  (c3_load_ids [mkRaw none none none, mkRaw (some "alpha") none none] 0
    (by decide)).2 (Or.inl rfl)

/-- Claim C4: when UpdateTask finds the record and every field mentioned in
the partial update equals the record's current value (dueDate compared by the
underlying timestamp), it returns the record unchanged, leaves the state
unchanged, and performs zero persistence writes. -/
theorem c4_noop_update (s : ManagerState) (id : String) (u : TaskUpdates) (t : Task)
    (hf : getTaskById s id = some t) (hno : noOpFor u t = true) :
    updateTask s id u = (some t, s, []) :=
  updateTask_noop s id u t hf hno

/-- Witness for claim C4 at a concrete input: a freshly added task receives a
partial update mentioning all four fields with their current values; nothing
changes and nothing is written. -/
theorem c4_witness :
    getTaskById (addTask (initManager Blob.absent).1 "a" (some "d") (some 5)).2.1 "1" =
      some { id := "1", title := some "a", description := some "d",
             completed := false, dueDate := some 5 } ∧
    noOpFor
      { completed := some false, title := some (some "a"),
        description := some (some "d"), dueDate := some (some 5) }
      { id := "1", title := some "a", description := some "d",
        completed := false, dueDate := some 5 } = true ∧
    updateTask (addTask (initManager Blob.absent).1 "a" (some "d") (some 5)).2.1 "1"
      { completed := some false, title := some (some "a"),
        description := some (some "d"), dueDate := some (some 5) } =
      (some { id := "1", title := some "a", description := some "d",
              completed := false, dueDate := some 5 },
       (addTask (initManager Blob.absent).1 "a" (some "d") (some 5)).2.1, []) :=
  ⟨rfl, rfl, c4_noop_update _ "1" _ _ rfl rfl⟩

/-- Claim C5: after Initialize on a non-empty parsed sequence the counter is
the maximum numeric-or-0 id value plus one, floored at one; the id that
AddTask then mints parses back to the counter value, which is strictly above
every numeric id among the loaded records. -/
theorem c5_counter (raws : List RawTask) (h : raws ≠ []) (ti : String)
    (de : Option String) (du : Option Int) :
    (initManager (Blob.parsed raws)).1.nextId =
      max 1 (maxNumericOr0 ((initManager (Blob.parsed raws)).1.tasks) + 1) ∧
    jsParseInt ((addTask (initManager (Blob.parsed raws)).1 ti de du).1.id) =
      some (initManager (Blob.parsed raws)).1.nextId ∧
    (∀ t ∈ (initManager (Blob.parsed raws)).1.tasks, ∀ n, jsParseInt t.id = some n →
      n < (initManager (Blob.parsed raws)).1.nextId) := by
  refine ⟨?_, ?_, ?_⟩
  · show (loadFromRaw raws).1.nextId = max 1 (maxNumericOr0 (loadFromRaw raws).1.tasks + 1)
    rw [loadFromRaw_nextId raws h, loadFromRaw_tasks]
    split_ifs with hlt <;> omega
  · show jsParseInt ((addTask (loadFromRaw raws).1 ti de du).1.id) =
      some (loadFromRaw raws).1.nextId
    rw [addTask_of_bound _ ti de du (loadFromRaw_bound raws)]
    exact jsParseInt_intToStr _
  · intro t ht n hp
    exact loadFromRaw_bound raws t.id (List.mem_map_of_mem Task.id ht) n hp

/-- Witness for claim C5 at the spec's own example: records with ids 1, alpha
and 5 yield a next minted id that parses to the counter (6). -/
theorem c5_witness :
    jsParseInt ((addTask (initManager (Blob.parsed [mkRaw (some "1") none none,
      mkRaw (some "alpha") none none, mkRaw (some "5") none none])).1
        "t" none none).1.id) =
      some (initManager (Blob.parsed [mkRaw (some "1") none none,
        mkRaw (some "alpha") none none, mkRaw (some "5") none none])).1.nextId :=
  (c5_counter [mkRaw (some "1") none none, mkRaw (some "alpha") none none,
    mkRaw (some "5") none none] (by decide) "t" none none).2.1

/-- Claim C6: for every reachable collection state, serializing the collection
as the persistence write does and re-Initializing a manager from that blob
reproduces exactly the same sequence of records. -/
theorem c6_roundtrip (s : ManagerState) (h : Reachable s) :
    (initManager (Blob.parsed ((saveTasks s.tasks).map savedToRaw))).1.tasks = s.tasks := by
  obtain ⟨b, hb⟩ := h
  exact roundTrip_of_nonempty s (nonempty_reach _ _ (initManager_ids_ne_empty b) hb)

/-- Witness for claim C6 at a concrete input: the state holding one added task
with a due date survives the save/reload round trip unchanged. -/
theorem c6_witness :
    (initManager (Blob.parsed ((saveTasks (addTask (initManager Blob.absent).1
      "a" none (some 3)).2.1.tasks).map savedToRaw))).1.tasks =
      (addTask (initManager Blob.absent).1 "a" none (some 3)).2.1.tasks :=
  c6_roundtrip _ ⟨Blob.absent, ReachableFrom.addStep _ "a" none (some 3) ReachableFrom.refl⟩

/-- Claim C7: the completed and uncompleted subsets partition the collection —
their concatenation is a permutation of GetAllTasks (exactly the same records),
no record lies in both, and each subset is a sublist of the collection,
preserving relative insertion order. -/
theorem c7_partition (s : ManagerState) :
    (getTasksByCompletion s true ++ getTasksByCompletion s false).Perm (getAllTasks s) ∧
    (∀ t ∈ getTasksByCompletion s true, t ∉ getTasksByCompletion s false) ∧
    (getTasksByCompletion s true).Sublist (getAllTasks s) ∧
    (getTasksByCompletion s false).Sublist (getAllTasks s) := by
  refine ⟨?_, ?_, List.filter_sublist _, List.filter_sublist _⟩
  · have hfun : (fun t : Task => t.completed == false) = (fun t => !(t.completed == true)) := by
      funext t
      cases t.completed <;> rfl
    unfold getTasksByCompletion getAllTasks
    rw [hfun]
    exact List.filter_append_perm _ s.tasks
  · intro t ht hf
    rw [getTasksByCompletion, List.mem_filter] at ht hf
    have h1 := ht.2
    have h2 := hf.2
    simp only [beq_iff_eq] at h1 h2
    rw [h1] at h2
    exact absurd h2 (by decide)

/-- Claim C8: Initialize on a blob that exists but fails to parse yields the
empty collection with the counter reset to 1 and reports the failure; the
failure is swallowed by the catch handler and never reaches the caller, which
the embedding reflects by Initialize being a total function. -/
theorem c8_invalid_blob :
    (initManager Blob.invalid).1.tasks = [] ∧
    (initManager Blob.invalid).1.nextId = 1 ∧
    LogEntry.errorLoad ∈ (initManager Blob.invalid).2 :=
  ⟨rfl, rfl, by decide⟩

/-- Claim C9 as stated is false on the code: a stored due-date string that is
present but empty fails to parse as a calendar date, yet no warning at all is
emitted — the truthiness test `if (rawTask.dueDate)` skips the parse — even
though the record is kept with its due date absent. -/
theorem c9_counterexample :
    (mkRaw (some "x") none (some "")).dueDate = some "" ∧
    parseDate "" = none ∧
    (initManager (Blob.parsed [mkRaw (some "x") none (some "")])).2.filter
      LogEntry.isWarn = [] ∧
    ((initManager (Blob.parsed [mkRaw (some "x") none (some "")])).1.tasks.getD 0
      dummyTask).dueDate = none :=
  ⟨rfl, rfl, rfl, rfl⟩

/-- Claim C9 (amended): during Initialize, every entry whose stored due-date
string is non-empty and fails to parse is still loaded (the collection keeps
one record per entry), its record's dueDate is absent, and a warning carrying
that record's id and the offending string is emitted; an entry with an empty
due-date string is skipped silently. -/
theorem c9_invalid_due (raws : List RawTask) (i : Nat) (ds : String)
    (h : i < raws.length) (hds : (raws.getD i dummyRaw).dueDate = some ds)
    (hne : ds ≠ "") (hp : parseDate ds = none) :
    (initManager (Blob.parsed raws)).1.tasks.length = raws.length ∧
    ((initManager (Blob.parsed raws)).1.tasks.getD i dummyTask).dueDate = none ∧
    LogEntry.warnInvalidDate
        ((initManager (Blob.parsed raws)).1.tasks.getD i dummyTask).id ds ∈
      (initManager (Blob.parsed raws)).2 := by
  have hdue : parseDue (chooseId (1 + (mintedBefore raws i : Int))
      (raws.getD i dummyRaw)).1 (raws.getD i dummyRaw).dueDate =
      (none, [LogEntry.warnInvalidDate (chooseId (1 + (mintedBefore raws i : Int))
        (raws.getD i dummyRaw)).1 ds]) := by
    rw [hds]
    dsimp only [parseDue]
    rw [if_neg hne, hp]
  refine ⟨?_, ?_, ?_⟩
  · rw [initManager_parsed_tasks, reconstructAll_length]
  · rw [initManager_parsed_tasks, reconstructAll_getD raws 1 i h]
    show (parseDue (chooseId (1 + (mintedBefore raws i : Int))
      (raws.getD i dummyRaw)).1 (raws.getD i dummyRaw).dueDate).1 = none
    rw [hdue]
  · rw [initManager_parsed_logs]
    apply List.mem_append_left
    rw [initManager_parsed_tasks, reconstructAll_getD raws 1 i h]
    apply reconstructAll_logs_mem raws 1 i h
    show _ ∈ (parseDue (chooseId (1 + (mintedBefore raws i : Int))
      (raws.getD i dummyRaw)).1 (raws.getD i dummyRaw).dueDate).2
    rw [hdue]
    exact List.mem_singleton.mpr rfl

/-- Witness for the amended claim C9 at a concrete input: due-date string
"nope" is non-empty and unparseable, and the emitted warning carries the
loaded record's id. -/
theorem c9_witness :
    LogEntry.warnInvalidDate ((initManager (Blob.parsed
      [mkRaw (some "x") none (some "nope")])).1.tasks.getD 0 dummyTask).id "nope" ∈
      (initManager (Blob.parsed [mkRaw (some "x") none (some "nope")])).2 :=
  (c9_invalid_due [mkRaw (some "x") none (some "nope")] 0 "nope"
    (by decide) rfl (by decide) rfl).2.2

/-- Claim C10: after Initialize, a reconstructed record's completed field (a
boolean by construction) is true exactly when the stored completed value is
precisely the boolean true; any other stored value — absent, null, a string,
a number, or false — yields false. -/
theorem c10_completed (raws : List RawTask) (i : Nat) (h : i < raws.length) :
    ((initManager (Blob.parsed raws)).1.tasks.getD i dummyTask).completed = true ↔
      (raws.getD i dummyRaw).completed = some (JsonVal.jbool true) := by
  rw [initManager_parsed_tasks, reconstructAll_getD raws 1 i h]
  show decide ((raws.getD i dummyRaw).completed = some (JsonVal.jbool true)) = true ↔ _
  constructor
  · exact of_decide_eq_true
  · intro hc
    exact decide_eq_true hc

/-- Witness for claim C10 at a concrete input: a stored string value "yes" for
completed does not make the reconstructed record completed. -/
theorem c10_witness :
    ((initManager (Blob.parsed [mkRaw none (some (JsonVal.jstr "yes")) none])).1.tasks.getD 0
      dummyTask).completed = true ↔
      (([mkRaw none (some (JsonVal.jstr "yes")) none] : List RawTask).getD 0
        dummyRaw).completed = some (JsonVal.jbool true) :=
  c10_completed [mkRaw none (some (JsonVal.jstr "yes")) none] 0 (by decide)

end TaskMgr
